import Mathlib

/-!
Verification of the vessel quality-check pipeline (`src/app.py`).

The Python source is shallowly embedded below.  Conventions of the embedding:

* A raw spreadsheet cell value (as delivered by the workbook-parsing
  collaborator, which the spec treats as external) is a `PVal`: Python
  `None`, a float `NaN` (how pandas represents an empty cell), a finite
  number, or a text string.  Finite Python floats are modelled as exact
  rationals: for the magnitudes handled here (spec values, measurements)
  double rounding never changes any comparison or equality the program
  performs, so `ℚ` is a faithful model of the float arithmetic used.
* A Python float (result of `clean_numeric`) is a `PyF`: `NaN` or a finite
  rational.  Comparisons on `PyF` follow IEEE semantics: every comparison
  with `NaN` is false.
* Python `str.upper`/`str.lower`/`str.strip` are modelled on ASCII text
  (the inputs of this program); Unicode case folding outside ASCII and
  non-ASCII whitespace are outside the modelled input range.
* `float(...)` string parsing is modelled for finite decimal literals
  (optional sign, digits, decimal point, exponent).  The exotic literal
  forms `"nan"`, `"inf"`, `"infinity"` and underscore separators are
  outside the modelled input range; on them and on any other
  non-numeric text the model returns `none`, matching the `except`
  branch of `clean_numeric` on ordinary non-numeric text.
* All rational values are built with `mkRat` and compared with `Rat.blt`
  (definitionally Mathlib's `<` on `ℚ`) so that every definition
  evaluates by kernel reduction.
-/

namespace VesselQC

/-! ## Characters and strings -/

/-- ASCII lower-casing of one character, modelling `str.lower` on the
ASCII inputs of this program. -/
def lowerChar (c : Char) : Char :=
  if 65 ≤ c.toNat ∧ c.toNat ≤ 90 then Char.ofNat (c.toNat + 32) else c

/-- ASCII upper-casing of one character, modelling `str.upper` on the
ASCII inputs of this program. -/
def upperChar (c : Char) : Char :=
  if 97 ≤ c.toNat ∧ c.toNat ≤ 122 then Char.ofNat (c.toNat - 32) else c

/-- Lower-case a string (ASCII model of `str.lower`). -/
def lowerStr (s : String) : String := ⟨s.data.map lowerChar⟩

/-- Upper-case a string (ASCII model of `str.upper`). -/
def upperStr (s : String) : String := ⟨s.data.map upperChar⟩

/-- Whitespace characters removed by Python `str.strip()`. -/
def isPySpace (c : Char) : Bool :=
  c == ' ' || c == '\t' || c == '\n' || c == '\r' || c == '\x0b' || c == '\x0c'

/-- Python `str.strip()`: remove leading and trailing whitespace. -/
def pyStrip (s : String) : String :=
  ⟨((s.data.dropWhile isPySpace).reverse.dropWhile isPySpace).reverse⟩

/-- Does `pat` start the list `t`?  (Structural, so that it evaluates by
kernel reduction.) -/
def startsWith : List Char → List Char → Bool
  | [], _ => true
  | _ :: _, [] => false
  | p :: ps, t :: ts => p == t && startsWith ps ts

/-- Does `pat` occur as a contiguous substring of `t`?  Models the Python
`in` operator on strings. -/
def occursIn (pat : List Char) : List Char → Bool
  | [] => decide (pat = [])
  | c :: ts => startsWith pat (c :: ts) || occursIn pat ts

/-- Python `needle in hay` on strings. -/
def strIn (needle hay : String) : Bool := occursIn needle.data hay.data

/-- Replace every newline character by a space; models
`str.replace("\n", " ")` (the pattern is a single character). -/
def replaceNL (s : String) : String :=
  ⟨s.data.map (fun c => if c == '\n' then ' ' else c)⟩

/-- Strict lexicographic order on character lists by code point; models
Python string `<`. -/
def lexLt : List Char → List Char → Bool
  | [], [] => false
  | [], _ :: _ => true
  | _ :: _, [] => false
  | a :: as, b :: bs =>
    if a.toNat < b.toNat then true
    else if b.toNat < a.toNat then false
    else lexLt as bs

/-- Join a list of strings with a separator; models `sep.join(...)`. -/
def joinSep (sep : String) : List String → String
  | [] => ""
  | [x] => x
  | x :: xs => x ++ sep ++ joinSep sep xs

/-! ## Raw cell values and Python floats -/

/-- A raw cell value as seen by the Python code: `None`, float `NaN`
(pandas' encoding of an empty cell), a finite number, or text. -/
inductive PVal where
  | pnone : PVal
  | nan : PVal
  | num : ℚ → PVal
  | str : String → PVal
deriving DecidableEq

/-- A Python float: `NaN` or a finite value. -/
inductive PyF where
  | nan : PyF
  | fin : ℚ → PyF
deriving DecidableEq

/-- Python `<` on floats: any comparison with `NaN` is false. -/
def pyLt : PyF → PyF → Bool
  | .fin a, .fin b => Rat.blt a b
  | _, _ => false

/-- Python `>` on floats. -/
def pyGt (a b : PyF) : Bool := pyLt b a

/-- `pd.notna`: false exactly on `None` and `NaN`. -/
def pnotna : PVal → Bool
  | .pnone => false
  | .nan => false
  | _ => true

/-- Decimal rendering of a rational with terminating decimal expansion;
models Python `str()` on the finite floats that occur in these
spreadsheets (integral values print with a trailing `.0`).  Values whose
expansion does not terminate within 18 digits cannot arise from a parsed
spreadsheet float of the modelled range; they get a fallback rendering. -/
def ratRepr (q : ℚ) : String :=
  if q.den = 1 then toString q.num ++ ".0"
  else
    match (List.range 18).find? (fun k => (mkRat (q.num * Int.ofNat (10 ^ (k + 1))) q.den).den = 1) with
    | some k =>
      let k := k + 1
      let m : Int := (mkRat (q.num * Int.ofNat (10 ^ k)) q.den).num
      let sgn := if m < 0 then "-" else ""
      let ds := toString m.natAbs
      let ds := if ds.length ≤ k then ⟨List.replicate (k + 1 - ds.length) '0'⟩ ++ ds else ds
      sgn ++ ⟨ds.data.take (ds.data.length - k)⟩ ++ "." ++ ⟨ds.data.drop (ds.data.length - k)⟩
    | none => toString q.num ++ "/" ++ toString q.den

/-- Python `str()` of a raw cell value.  `str(float('nan'))` is `"nan"`,
`str(None)` is `"None"`. -/
def pyStr : PVal → String
  | .pnone => "None"
  | .nan => "nan"
  | .num q => ratRepr q
  | .str s => s

/-! ## Numeric normalizer (`clean_numeric`, `src/app.py` lines 30-36) -/

/-- Value of a list of decimal digit characters. -/
def digitsToNat (ds : List Char) : Nat :=
  ds.foldl (fun a c => 10 * a + (c.toNat - 48)) 0

/-- Parse a finite decimal literal the way Python `float()` does:
optional sign, digits with an optional decimal point (digits required on
at least one side), optional exponent.  Returns `none` on any other
input (the `except` branch of the caller). -/
def parseFloat (s : String) : Option ℚ :=
  let cs := s.data
  let sgnCs : Int × List Char :=
    match cs with
    | '+' :: t => (1, t)
    | '-' :: t => (-1, t)
    | _ => (1, cs)
  let sgn := sgnCs.1
  let cs1 := sgnCs.2
  let d1 := cs1.takeWhile Char.isDigit
  let r1 := cs1.dropWhile Char.isDigit
  let fr : List Char × List Char :=
    match r1 with
    | '.' :: t => (t.takeWhile Char.isDigit, t.dropWhile Char.isDigit)
    | _ => ([], r1)
  let d2 := fr.1
  let r2 := fr.2
  if d1.isEmpty && d2.isEmpty then none
  else
    let mant : Int := sgn * Int.ofNat (digitsToNat (d1 ++ d2))
    let mkVal : Int → Option ℚ := fun net =>
      if 0 ≤ net then some (mkRat (mant * Int.ofNat (10 ^ net.toNat)) 1)
      else some (mkRat mant (10 ^ (-net).toNat))
    match r2 with
    | [] => mkVal (-(Int.ofNat d2.length))
    | e :: t =>
      if e == 'e' || e == 'E' then
        let esCs : Int × List Char :=
          match t with
          | '+' :: u => (1, u)
          | '-' :: u => (-1, u)
          | _ => (1, t)
        let ed := esCs.2.takeWhile Char.isDigit
        let rest := esCs.2.dropWhile Char.isDigit
        if ed.isEmpty || !rest.isEmpty then none
        else mkVal (esCs.1 * Int.ofNat (digitsToNat ed) - Int.ofNat d2.length)
      else none

/-- Remove every `<` and `>` character; models
`val.replace("<", "").replace(">", "")`. -/
def stripGlyphs (s : String) : String :=
  ⟨s.data.filter (fun c => !(c == '<' || c == '>'))⟩

/-- `clean_numeric` (`src/app.py` lines 30-36).  On text: strip the
comparison glyphs and surrounding whitespace, then parse; `None` on
failure.  On a number, `float` is the identity.  On `NaN`, `float(nan)`
succeeds and returns `nan` (not `None`).  On Python `None`, `float`
raises, so the result is `None`. -/
def clean_numeric : PVal → Option PyF
  | .str s => (parseFloat (pyStrip (stripGlyphs s))).map .fin
  | .num q => some (.fin q)
  | .nan => some .nan
  | .pnone => none

/-! ## Range evaluator (`compare_value`, `src/app.py` lines 38-43) -/

/-- `compare_value` (`src/app.py` lines 38-43): fail when a present
lower bound exceeds the value or a present upper bound is below it. -/
def compare_value (test_val : PyF) (min_val max_val : Option PyF) : Bool :=
  if (match min_val with | some m => pyLt test_val m | none => false) then false
  else if (match max_val with | some m => pyGt test_val m | none => false) then false
  else true

/-- `Rat.blt` is definitionally Mathlib's `<` on `ℚ`. -/
theorem blt_iff_lt (a b : ℚ) : Rat.blt a b = true ↔ a < b := Iff.rfl

/-- `compare_value` on finite values fails exactly when the value is
below a present minimum or above a present maximum. -/
theorem compare_value_false_iff (v : ℚ) (mn mx : Option ℚ) :
    compare_value (.fin v) (mn.map .fin) (mx.map .fin) = false ↔
      ((∃ m ∈ mn, v < m) ∨ (∃ m ∈ mx, m < v)) := by
  cases mn with
  | none =>
    cases mx with
    | none => simp [compare_value, pyLt, pyGt]
    | some M =>
      cases h2 : Rat.blt M v with
      | false =>
        have hp : ¬ (M < v) := by rw [← blt_iff_lt]; simp [h2]
        simp [compare_value, pyLt, pyGt, h2, hp]
      | true =>
        have hp : M < v := (blt_iff_lt _ _).mp h2
        simp [compare_value, pyLt, pyGt, h2, hp]
  | some m =>
    cases mx with
    | none =>
      cases h1 : Rat.blt v m with
      | false =>
        have hp : ¬ (v < m) := by rw [← blt_iff_lt]; simp [h1]
        simp [compare_value, pyLt, pyGt, h1, hp]
      | true =>
        have hp : v < m := (blt_iff_lt _ _).mp h1
        simp [compare_value, pyLt, pyGt, h1, hp]
    | some M =>
      cases h1 : Rat.blt v m with
      | false =>
        have hp1 : ¬ (v < m) := by rw [← blt_iff_lt]; simp [h1]
        cases h2 : Rat.blt M v with
        | false =>
          have hp2 : ¬ (M < v) := by rw [← blt_iff_lt]; simp [h2]
          simp [compare_value, pyLt, pyGt, h1, h2, hp1, hp2]
        | true =>
          have hp2 : M < v := (blt_iff_lt _ _).mp h2
          simp [compare_value, pyLt, pyGt, h1, h2, hp1, hp2]
      | true =>
        have hp1 : v < m := (blt_iff_lt _ _).mp h1
        simp [compare_value, pyLt, pyGt, h1, hp1]

/-- C1: for a present (finite) numeric value and optional numeric
bounds, `compare_value` fails exactly when the value is below a present
minimum or above a present maximum; boundary values pass; with both
bounds absent the result is PASS.  The five concrete evaluations of the
claim are included (15.01 is `mkRat 1501 100`). -/
theorem c1_range_evaluator :
    (∀ (v : ℚ) (mn mx : Option ℚ),
      compare_value (.fin v) (mn.map .fin) (mx.map .fin) = false ↔
        ((∃ m ∈ mn, v < m) ∨ (∃ m ∈ mx, m < v))) ∧
    compare_value (.fin (mkRat 10 1)) (some (.fin (mkRat 5 1))) (some (.fin (mkRat 15 1))) = true ∧
    compare_value (.fin (mkRat 5 1)) (some (.fin (mkRat 5 1))) (some (.fin (mkRat 15 1))) = true ∧
    compare_value (.fin (mkRat 1501 100)) (some (.fin (mkRat 5 1))) (some (.fin (mkRat 15 1))) = false ∧
    compare_value (.fin (mkRat 3 1)) none (some (.fin (mkRat 15 1))) = true ∧
    compare_value (.fin (mkRat 3 1)) (some (.fin (mkRat 5 1))) none = false :=
  ⟨compare_value_false_iff, by decide, by decide, by decide, by decide, by decide⟩

/-! ## Product classifier (`extract_product_from_sheetname`,
`src/app.py` lines 16-28)

The fallback is `re.search(r"(MOGAS.*RON|JET.*FUEL|HSD|DIESEL|HOBC|OCTANE)", sheet_upper)`:
leftmost starting position wins, alternatives are tried in order, `.`
matches any character except a newline, and in the source `.*` is
greedy (the flag below selects between the source's greedy span and the
non-greedy span the specification describes; group 1 is the whole
matched span). -/

/-- No newline among the characters (the span `.` may cover). -/
def noNL (cs : List Char) : Bool := cs.all (fun c => !(c == '\n'))

/-- Match `pre` then `.*` then `suf` at the start of `pre ++ rest`,
returning the full matched span.  `greedy = true` prefers the longest
span (the source's `.*`); `greedy = false` prefers the shortest (the
non-greedy variant described by the specification). -/
def dotStarSpan (greedy : Bool) (pre suf rest : List Char) : Option (List Char) :=
  let idxs := List.range (rest.length + 1)
  (if greedy then idxs.reverse else idxs).findSome? (fun j =>
    if noNL (rest.take j) && startsWith suf (rest.drop j) then
      some (pre ++ rest.take j ++ suf)
    else none)

/-- Try the six alternatives of the product pattern, in source order, at
one starting position. -/
def prodAltsAt (greedy : Bool) (u : List Char) (p : Nat) : Option (List Char) :=
  let t := u.drop p
  (if startsWith "MOGAS".data t then dotStarSpan greedy "MOGAS".data "RON".data (t.drop 5) else none) <|>
  (if startsWith "JET".data t then dotStarSpan greedy "JET".data "FUEL".data (t.drop 3) else none) <|>
  (if startsWith "HSD".data t then some "HSD".data else none) <|>
  (if startsWith "DIESEL".data t then some "DIESEL".data else none) <|>
  (if startsWith "HOBC".data t then some "HOBC".data else none) <|>
  (if startsWith "OCTANE".data t then some "OCTANE".data else none)

/-- `re.search` for the product pattern: scan starting positions left to
right. -/
def reSearchProduct (greedy : Bool) (u : List Char) : Option (List Char) :=
  (List.range (u.length + 1)).findSome? (prodAltsAt greedy u)

/-- `extract_product_from_sheetname` (`src/app.py` lines 16-28). -/
def extract_product_from_sheetname (sheet_name : String) : String :=
  let su := upperStr sheet_name
  if strIn "MOGAS" su then (if strIn "92" su then "MOGAS 92 RON" else "MOGAS 95 RON")
  else if strIn "HSD" su || strIn "DIESEL" su then "HSD"
  else if strIn "JET" su then "JET FUEL"
  else if strIn "HOBC" su || strIn "OCTANE" su then "HOBC"
  else
    match reSearchProduct true su.data with
    | some m => pyStrip ⟨m⟩
    | none => "UNKNOWN"

/-- `startsWith` decides the prefix relation. -/
theorem startsWith_iff : ∀ (p t : List Char), startsWith p t = true ↔ p <+: t
  | [], t => by simp [startsWith]
  | _ :: _, [] => by simp [startsWith]
  | a :: as, b :: bs => by
    simp only [startsWith, Bool.and_eq_true, beq_iff_eq, startsWith_iff as bs,
      List.cons_prefix_cons]

/-- `occursIn` decides the infix (substring) relation. -/
theorem occursIn_iff : ∀ (p t : List Char), occursIn p t = true ↔ p <:+: t
  | p, [] => by simp [occursIn]
  | p, c :: ts => by
    simp only [occursIn, Bool.or_eq_true, startsWith_iff, occursIn_iff p ts]
    exact (List.infix_cons_iff).symm

/-- A `findSome?` over a list all of whose evaluations are `none` is
`none`. -/
theorem findSome?_eq_none_of {α β : Type} (f : α → Option β) :
    ∀ (l : List α), (∀ x ∈ l, f x = none) → l.findSome? f = none
  | [], _ => rfl
  | a :: as, h => by
    have ha := h a (List.mem_cons_self a as)
    have hrest := findSome?_eq_none_of f as (fun x hx => h x (List.mem_cons_of_mem _ hx))
    simp [List.findSome?_cons, ha, hrest]

/-- If none of the six keywords occurs in `u`, every alternative of the
product pattern fails at every starting position, for either span
flavor. -/
theorem prodAltsAt_eq_none (g : Bool) (u : List Char) (p : Nat)
    (h1 : occursIn "MOGAS".data u = false) (h2 : occursIn "HSD".data u = false)
    (h3 : occursIn "DIESEL".data u = false) (h4 : occursIn "JET".data u = false)
    (h5 : occursIn "HOBC".data u = false) (h6 : occursIn "OCTANE".data u = false) :
    prodAltsAt g u p = none := by
  have key : ∀ lit : List Char, occursIn lit u = false →
      startsWith lit (u.drop p) = false := by
    intro lit hocc
    cases hsw : startsWith lit (u.drop p) with
    | false => rfl
    | true =>
      exfalso
      obtain ⟨r, hr⟩ := (startsWith_iff _ _).mp hsw
      have hinf : lit <:+: u := by
        refine ⟨u.take p, r, ?_⟩
        rw [List.append_assoc, hr, List.take_append_drop]
      rw [(occursIn_iff _ _).mpr hinf] at hocc
      cases hocc
  simp [prodAltsAt, key _ h1, key _ h2, key _ h3, key _ h4, key _ h5, key _ h6]

/-- If none of the six keywords occurs, the pattern search fails, for
either span flavor. -/
theorem reSearchProduct_eq_none (g : Bool) (u : List Char)
    (h1 : occursIn "MOGAS".data u = false) (h2 : occursIn "HSD".data u = false)
    (h3 : occursIn "DIESEL".data u = false) (h4 : occursIn "JET".data u = false)
    (h5 : occursIn "HOBC".data u = false) (h6 : occursIn "OCTANE".data u = false) :
    reSearchProduct g u = none :=
  findSome?_eq_none_of _ _ (fun p _ => prodAltsAt_eq_none g u p h1 h2 h3 h4 h5 h6)

/-- C6: the product classifier applies the keyword rules on the
upper-cased sheet name with first-match-wins priority, and returns
`"UNKNOWN"` for input matching none of the rules (on such input the
fallback pattern can never match either: each of its alternatives
requires one of the keywords). -/
theorem c6_classifier (s : String) :
    (strIn "MOGAS" (upperStr s) = true → strIn "92" (upperStr s) = true →
      extract_product_from_sheetname s = "MOGAS 92 RON") ∧
    (strIn "MOGAS" (upperStr s) = true → strIn "92" (upperStr s) = false →
      extract_product_from_sheetname s = "MOGAS 95 RON") ∧
    (strIn "MOGAS" (upperStr s) = false →
      (strIn "HSD" (upperStr s) = true ∨ strIn "DIESEL" (upperStr s) = true) →
      extract_product_from_sheetname s = "HSD") ∧
    (strIn "MOGAS" (upperStr s) = false → strIn "HSD" (upperStr s) = false →
      strIn "DIESEL" (upperStr s) = false → strIn "JET" (upperStr s) = true →
      extract_product_from_sheetname s = "JET FUEL") ∧
    (strIn "MOGAS" (upperStr s) = false → strIn "HSD" (upperStr s) = false →
      strIn "DIESEL" (upperStr s) = false → strIn "JET" (upperStr s) = false →
      (strIn "HOBC" (upperStr s) = true ∨ strIn "OCTANE" (upperStr s) = true) →
      extract_product_from_sheetname s = "HOBC") ∧
    (strIn "MOGAS" (upperStr s) = false → strIn "HSD" (upperStr s) = false →
      strIn "DIESEL" (upperStr s) = false → strIn "JET" (upperStr s) = false →
      strIn "HOBC" (upperStr s) = false → strIn "OCTANE" (upperStr s) = false →
      extract_product_from_sheetname s = "UNKNOWN") := by
  refine ⟨?_, ?_, ?_, ?_, ?_, ?_⟩
  · intro h1 h2; simp [extract_product_from_sheetname, h1, h2]
  · intro h1 h2; simp [extract_product_from_sheetname, h1, h2]
  · rintro h1 (h2 | h2) <;> simp [extract_product_from_sheetname, h1, h2]
  · intro h1 h2 h3 h4; simp [extract_product_from_sheetname, h1, h2, h3, h4]
  · rintro h1 h2 h3 h4 (h5 | h5) <;>
      simp [extract_product_from_sheetname, h1, h2, h3, h4, h5]
  · intro h1 h2 h3 h4 h5 h6
    have hs := reSearchProduct_eq_none true (upperStr s).data
      (by simpa [strIn] using h1) (by simpa [strIn] using h2)
      (by simpa [strIn] using h3) (by simpa [strIn] using h4)
      (by simpa [strIn] using h5) (by simpa [strIn] using h6)
    simp [extract_product_from_sheetname, h1, h2, h3, h4, h5, h6, hs]

/-- Witness for `c6_classifier` at concrete sheet names. -/
theorem c6_classifier_witness :
    extract_product_from_sheetname "Mogas 92 Cargo" = "MOGAS 92 RON" ∧
    extract_product_from_sheetname "hsd cargo 2" = "HSD" ∧
    extract_product_from_sheetname "Cargo 7" = "UNKNOWN" :=
  ⟨(c6_classifier "Mogas 92 Cargo").1 (by decide) (by decide),
   (c6_classifier "hsd cargo 2").2.2.1 (by decide) (Or.inl (by decide)),
   (c6_classifier "Cargo 7").2.2.2.2.2 (by decide) (by decide) (by decide)
     (by decide) (by decide) (by decide)⟩

/-- C7: on every sheet name where none of the four keyword rules fires,
the classifier's result coincides exactly with the specification's
description of the fallback — a non-greedy pattern search whose trimmed
span is returned on success and `"UNKNOWN"` on failure.  (Both the
source's greedy search and the described non-greedy search in fact fail
on this domain, since every alternative needs a keyword that would have
fired a rule.) -/
theorem c7_fallback_nongreedy (s : String)
    (h1 : strIn "MOGAS" (upperStr s) = false) (h2 : strIn "HSD" (upperStr s) = false)
    (h3 : strIn "DIESEL" (upperStr s) = false) (h4 : strIn "JET" (upperStr s) = false)
    (h5 : strIn "HOBC" (upperStr s) = false) (h6 : strIn "OCTANE" (upperStr s) = false) :
    extract_product_from_sheetname s =
      (match reSearchProduct false (upperStr s).data with
       | some m => pyStrip ⟨m⟩
       | none => "UNKNOWN") ∧
    reSearchProduct true (upperStr s).data = none ∧
    reSearchProduct false (upperStr s).data = none := by
  have hg := reSearchProduct_eq_none true (upperStr s).data
    (by simpa [strIn] using h1) (by simpa [strIn] using h2)
    (by simpa [strIn] using h3) (by simpa [strIn] using h4)
    (by simpa [strIn] using h5) (by simpa [strIn] using h6)
  have hn := reSearchProduct_eq_none false (upperStr s).data
    (by simpa [strIn] using h1) (by simpa [strIn] using h2)
    (by simpa [strIn] using h3) (by simpa [strIn] using h4)
    (by simpa [strIn] using h5) (by simpa [strIn] using h6)
  refine ⟨?_, hg, hn⟩
  simp [extract_product_from_sheetname, h1, h2, h3, h4, h5, h6, hg, hn]

/-- Witness for `c7_fallback_nongreedy` at a concrete sheet name. -/
theorem c7_fallback_nongreedy_witness :
    extract_product_from_sheetname "Cargo 3" =
      (match reSearchProduct false (upperStr "Cargo 3").data with
       | some m => pyStrip ⟨m⟩
       | none => "UNKNOWN") ∧
    reSearchProduct true (upperStr "Cargo 3").data = none :=
  ⟨(c7_fallback_nongreedy "Cargo 3" (by decide) (by decide) (by decide)
      (by decide) (by decide) (by decide)).1,
   (c7_fallback_nongreedy "Cargo 3" (by decide) (by decide) (by decide)
      (by decide) (by decide) (by decide)).2.1⟩

/-! ## Grid preprocessor (`find_table_start` and `clean_table`,
`src/app.py` lines 9-14 and 45-54)

A sheet is a grid: a list of rows of raw cell values.  The workbook
collaborator delivers rectangular grids (pandas pads short rows with
`NaN`); `padRow` normalizes a row to the header width accordingly. -/

/-- The scan text of one grid row:
`" ".join(str(x) for x in row.values if pd.notna(x)).lower()`. -/
def rowText (row : List PVal) : String :=
  lowerStr (joinSep " " ((row.filter pnotna).map pyStr))

/-- Does a row qualify as the header row? -/
def headerPred (row : List PVal) : Bool :=
  strIn "description" (rowText row) || strIn "method" (rowText row)

/-- `find_table_start` (`src/app.py` lines 9-14): index of the first
row whose scan text contains `"description"` or `"method"`. -/
def find_table_start : List (List PVal) → Option Nat
  | [] => none
  | row :: rest =>
    if headerPred row then some 0
    else (find_table_start rest).map (· + 1)

/-- Column-name normalization: `str(c).strip().replace("\n", " ")`. -/
def normColName (c : PVal) : String := replaceNL (pyStrip (pyStr c))

/-- Normalize a row to the header width (rectangular-grid model). -/
def padRow (n : Nat) (row : List PVal) : List PVal :=
  (row ++ List.replicate (n - row.length) PVal.nan).take n

/-- `clean_table` (`src/app.py` lines 45-54): locate the header row,
use it for column names, keep the rows below it, and drop rows that are
entirely NA.  A cleaned row is stored with its column names attached. -/
def clean_table (grid : List (List PVal)) :
    Option (List String × List (List (String × PVal))) :=
  match find_table_start grid with
  | none => none
  | some i =>
    match grid.drop i with
    | [] => none
    | header :: rest =>
      let cols := header.map normColName
      let dataRows := rest.filter (fun r => (padRow cols.length r).any pnotna)
      some (cols, dataRows.map (fun r => cols.zip (padRow cols.length r)))

/-- `find_table_start` characterized: `none` exactly when no row
qualifies, and a returned index is the first qualifying row. -/
theorem find_table_start_spec : ∀ (grid : List (List PVal)),
    (find_table_start grid = none ↔ ∀ row ∈ grid, headerPred row = false) ∧
    (∀ i, find_table_start grid = some i →
      i < grid.length ∧ headerPred (grid.getD i []) = true ∧
      ∀ j, j < i → headerPred (grid.getD j []) = false)
  | [] => by simp [find_table_start]
  | row :: rest => by
    have ih := find_table_start_spec rest
    cases hp : headerPred row with
    | true =>
      constructor
      · simp [find_table_start, hp]
      · intro i hi
        simp only [find_table_start, hp, if_true] at hi
        cases hi
        exact ⟨Nat.succ_pos _, by simpa using hp, fun j hj => absurd hj (Nat.not_lt_zero j)⟩
    | false =>
      constructor
      · simp only [find_table_start, hp, Bool.false_eq_true, if_false,
          Option.map_eq_none', ih.1, List.mem_cons]
        constructor
        · rintro h x (rfl | hx)
          · exact hp
          · exact h x hx
        · intro h x hx
          exact h x (Or.inr hx)
      · intro i hi
        simp only [find_table_start, hp, Bool.false_eq_true, if_false,
          Option.map_eq_some'] at hi
        obtain ⟨i', hi', rfl⟩ := hi
        obtain ⟨hlen, hhead, hbefore⟩ := ih.2 i' hi'
        refine ⟨by simpa using hlen, by simpa using hhead, ?_⟩
        intro j hj
        cases j with
        | zero => simpa using hp
        | succ j' =>
          have := hbefore j' (by omega)
          simpa using this

/-- Reading at an offset past a `drop` is reading at the shifted index
(defaults agree out of range). -/
theorem getD_drop_add {α : Type} (l : List α) (n m : Nat) (d : α) :
    (l.drop n).getD m d = l.getD (n + m) d := by
  simp [List.getD_eq_getElem?_getD, List.getElem?_drop]

/-- C4 counterexample: the row `["met", "hod"]` is not selected as a
header row by the code, although the plain concatenation of its
non-empty cell values contains `"method"` (the code joins the cells
with spaces, so the sought substring cannot span adjacent cells). -/
theorem c4_concatenation_counterexample :
    strIn "method"
      (lowerStr (joinSep "" (([PVal.str "met", PVal.str "hod"].filter pnotna).map pyStr))) = true ∧
    find_table_start [[PVal.str "met", PVal.str "hod"]] = none ∧
    clean_table [[PVal.str "met", PVal.str "hod"]] = none :=
  ⟨by decide, by decide, by decide⟩

/-- C4 (amended): the header row is the first row whose *space-joined*
non-empty cell values contain `"description"` or `"method"`
case-insensitively; the preprocessor returns `NotFound` exactly when no
row qualifies; and on success every produced row originates strictly
below the header row and is not entirely NA (fully-empty rows are
dropped). -/
theorem c4_grid_preprocessor (grid : List (List PVal)) :
    (clean_table grid = none ↔ ∀ row ∈ grid, headerPred row = false) ∧
    (∀ i, find_table_start grid = some i →
      i < grid.length ∧ headerPred (grid.getD i []) = true ∧
      ∀ j, j < i → headerPred (grid.getD j []) = false) ∧
    (∀ cols rows, clean_table grid = some (cols, rows) →
      ∃ i, find_table_start grid = some i ∧
        cols = (grid.getD i []).map normColName ∧
        ∀ r ∈ rows, ∃ k, i < k ∧ k < grid.length ∧
          r = cols.zip (padRow cols.length (grid.getD k [])) ∧
          (padRow cols.length (grid.getD k [])).any pnotna = true) := by
  obtain ⟨hnone, hsome⟩ := find_table_start_spec grid
  have hdropne : ∀ i, find_table_start grid = some i →
      grid.drop i = grid.getD i [] :: grid.drop (i + 1) := by
    intro i hf
    have hlen := (hsome i hf).1
    rw [List.getD_eq_getElem _ _ hlen]
    exact List.drop_eq_getElem_cons hlen
  refine ⟨?_, hsome, ?_⟩
  · cases hf : find_table_start grid with
    | none => simpa [clean_table, hf] using hnone
    | some i =>
      rw [← hnone]
      constructor
      · intro h
        simp [clean_table, hf, hdropne i hf] at h
      · intro h
        rw [h] at hf
        cases hf
  · intro cols rows hct
    cases hf : find_table_start grid with
    | none =>
      simp [clean_table, hf] at hct
    | some i =>
      refine ⟨i, rfl, ?_, ?_⟩
      · simp only [clean_table, hf, hdropne i hf, Option.some.injEq, Prod.mk.injEq] at hct
        exact hct.1.symm
      · intro r hr
        simp only [clean_table, hf, hdropne i hf, Option.some.injEq, Prod.mk.injEq] at hct
        obtain ⟨hcols, hrows⟩ := hct
        rw [← hrows] at hr
        obtain ⟨r0, hr0mem, hr0eq⟩ := List.mem_map.mp hr
        obtain ⟨hr0drop, hr0any⟩ := List.mem_filter.mp hr0mem
        obtain ⟨m, hm⟩ := List.mem_iff_getElem?.mp hr0drop
        rw [List.getElem?_drop] at hm
        obtain ⟨hk, hval⟩ := List.getElem?_eq_some.mp hm
        have hgetD : grid.getD (i + 1 + m) [] = r0 := by
          rw [List.getD_eq_getElem _ _ hk]
          exact hval
        refine ⟨i + 1 + m, by omega, hk, ?_, ?_⟩
        · rw [hgetD, ← hcols, hr0eq]
        · rw [hgetD, ← hcols]
          exact hr0any

/-- Witness for `c4_grid_preprocessor` at a concrete grid: header noise
above, the header at index 1, an all-NA row dropped below. -/
theorem c4_grid_preprocessor_witness :
    find_table_start
      [[PVal.nan, PVal.str "x"], [PVal.str "Tests Description"], [PVal.nan], [PVal.str "v"]] = some 1 ∧
    (1 < ([[PVal.nan, PVal.str "x"], [PVal.str "Tests Description"], [PVal.nan], [PVal.str "v"]] :
        List (List PVal)).length ∧
      headerPred ([[PVal.nan, PVal.str "x"], [PVal.str "Tests Description"], [PVal.nan], [PVal.str "v"]].getD 1 []) = true ∧
      ∀ j, j < 1 →
        headerPred ([[PVal.nan, PVal.str "x"], [PVal.str "Tests Description"], [PVal.nan], [PVal.str "v"]].getD j []) = false) :=
  ⟨by decide,
   (c4_grid_preprocessor
       [[PVal.nan, PVal.str "x"], [PVal.str "Tests Description"], [PVal.nan], [PVal.str "v"]]).2.1
     1 (by decide)⟩

/-! ## Fuzzy matcher (`difflib.get_close_matches` with `n=1`,
called at `src/app.py` lines 71 and 101)

`SequenceMatcher` is embedded for inputs shorter than 200 characters
(below the autojunk threshold, so no element of the query is junk; the
strings this program matches are far below it).  `ratio()` is
`2*M/T` where `M` is the total size of the matching blocks of the
Ratcliff-Obershelp decomposition and `T` the sum of the lengths; as a
correctly-rounded double of that rational, its comparisons against the
cutoffs and against other ratios of realistically-sized strings agree
exactly with the rational comparisons used here.  The two quick-ratio
pre-checks of `get_close_matches` are upper bounds of `ratio()`, so the
three-fold conjunction is equivalent to `ratio() >= cutoff`. -/

/-- Length of the equal run of `a` (from `i`) and `b` (from `j`),
stopping at the window ends; the fuel is the remaining window of `a`. -/
def runLenF (a b : List Char) (bhi : Nat) : Nat → Nat → Nat → Nat
  | 0, _, _ => 0
  | fuel + 1, i, j =>
    if j < bhi then
      match a[i]?, b[j]? with
      | some x, some y => if x = y then runLenF a b bhi fuel (i + 1) (j + 1) + 1 else 0
      | _, _ => 0
    else 0

/-- Equal-run length inside the windows `[i, ahi) × [j, bhi)`. -/
def runLen (a b : List Char) (ahi bhi i j : Nat) : Nat := runLenF a b bhi (ahi - i) i j

/-- `find_longest_match` on the windows `[alo, ahi) × [blo, bhi)`: the
longest matching block, preferring the earliest start in `a`, then the
earliest start in `b` (first strict improvement in scan order). -/
def longestMatch (a b : List Char) (alo ahi blo bhi : Nat) : Nat × Nat × Nat :=
  (List.range' alo (ahi - alo)).foldl (fun best i =>
    (List.range' blo (bhi - blo)).foldl (fun best j =>
      let k := runLen a b ahi bhi i j
      if best.2.2 < k then (i, j, k) else best) best) (alo, blo, 0)

/-- Total size of the matching blocks (Ratcliff-Obershelp recursion on
the two windows).  The fuel dominates the recursion depth: each
recursive window is strictly narrower in `a`, so `ahi - alo` steps
always suffice. -/
def mbTotal (a b : List Char) : Nat → Nat → Nat → Nat → Nat → Nat
  | 0, _, _, _, _ => 0
  | fuel + 1, alo, ahi, blo, bhi =>
    let m := longestMatch a b alo ahi blo bhi
    if m.2.2 = 0 then 0
    else
      mbTotal a b fuel alo m.1 blo m.2.1 + m.2.2 +
      mbTotal a b fuel (m.1 + m.2.2) ahi (m.2.1 + m.2.2) bhi

/-- `SequenceMatcher(None, a, b).ratio()` as an exact rational:
`2*M/T`, and `1` when both strings are empty. -/
def seqRatio (a b : String) : ℚ :=
  let la := a.data
  let lb := b.data
  if la.length + lb.length = 0 then mkRat 1 1
  else
    mkRat (Int.ofNat (2 * mbTotal la lb (la.length + 1) 0 la.length 0 lb.length))
      (la.length + lb.length)

/-- Is `p` strictly greater than `q` as a Python `(score, string)`
tuple?  (`max` keeps the incumbent on ties.) -/
def better (p q : ℚ × String) : Bool :=
  Rat.blt q.1 p.1 || (decide (q.1 = p.1) && lexLt q.2.data p.2.data)

/-- One step of Python `max` over scored candidates. -/
def updBest (best : Option (ℚ × String)) (p : ℚ × String) : Option (ℚ × String) :=
  match best with
  | none => some p
  | some q => if better p q then some p else some q

/-- `difflib.get_close_matches(word, possibilities, n=1, cutoff)`,
returning the single best candidate if any: filter the candidates whose
ratio reaches the cutoff, pair each with its score, and take the
maximum of the `(score, candidate)` tuples (Python tuple order; `max`
keeps the first of exactly-equal tuples). -/
def get_close_matches1 (word : String) (poss : List String) (cutoff : ℚ) : Option String :=
  let scored := (poss.filter (fun x => !(Rat.blt (seqRatio x word) cutoff))).map
    (fun x => (seqRatio x word, x))
  (scored.foldl updBest none).map (·.2)

/-- Characters with equal code points are equal. -/
theorem char_toNat_inj {a b : Char} (h : a.toNat = b.toNat) : a = b := by
  have h1 : Char.ofNat a.toNat = Char.ofNat b.toNat := by rw [h]
  rwa [Char.ofNat_toNat, Char.ofNat_toNat] at h1

/-- `lexLt` is irreflexive. -/
theorem lexLt_irrefl : ∀ a : List Char, lexLt a a = false
  | [] => rfl
  | c :: cs => by simp [lexLt, lexLt_irrefl cs]

/-- `lexLt` is transitive. -/
theorem lexLt_trans : ∀ a b c : List Char,
    lexLt a b = true → lexLt b c = true → lexLt a c = true
  | [], [], _, h1, _ => by cases h1
  | [], _ :: _, [], _, h2 => by cases h2
  | [], _ :: _, _ :: _, _, _ => rfl
  | _ :: _, [], _, h1, _ => by cases h1
  | _ :: _, _ :: _, [], _, h2 => by cases h2
  | x :: xs, y :: ys, z :: zs, h1, h2 => by
    simp only [lexLt] at h1 h2 ⊢
    by_cases hxy : x.toNat < y.toNat
    · by_cases hyz : y.toNat < z.toNat
      · simp [Nat.lt_trans hxy hyz]
      · by_cases hzy : z.toNat < y.toNat
        · rw [if_neg hyz, if_pos hzy] at h2
          cases h2
        · have hxz : x.toNat < z.toNat := by omega
          simp [hxz]
    · by_cases hyx : y.toNat < x.toNat
      · rw [if_neg hxy, if_pos hyx] at h1
        cases h1
      · rw [if_neg hxy, if_neg hyx] at h1
        by_cases hyz : y.toNat < z.toNat
        · have hxz : x.toNat < z.toNat := by omega
          simp [hxz]
        · by_cases hzy : z.toNat < y.toNat
          · rw [if_neg hyz, if_pos hzy] at h2
            cases h2
          · rw [if_neg hyz, if_neg hzy] at h2
            have hxz : ¬ x.toNat < z.toNat := by omega
            have hzx : ¬ z.toNat < x.toNat := by omega
            simp [hxz, hzx, lexLt_trans xs ys zs h1 h2]

/-- If neither list is lexicographically below the other, they are
equal. -/
theorem lexLt_antisymm : ∀ a b : List Char,
    lexLt a b = false → lexLt b a = false → a = b
  | [], [], _, _ => rfl
  | [], _ :: _, h1, _ => by cases h1
  | _ :: _, [], _, h2 => by cases h2
  | x :: xs, y :: ys, h1, h2 => by
    simp only [lexLt] at h1 h2
    by_cases hxy : x.toNat < y.toNat
    · rw [if_pos hxy] at h1
      cases h1
    · by_cases hyx : y.toNat < x.toNat
      · rw [if_pos hyx] at h2
        cases h2
      · rw [if_neg hxy, if_neg hyx] at h1
        rw [if_neg hyx, if_neg hxy] at h2
        rw [char_toNat_inj (show x.toNat = y.toNat by omega),
          lexLt_antisymm xs ys h1 h2]

/-- No scored pair is strictly greater than itself. -/
theorem better_irrefl (p : ℚ × String) : better p p = false := by
  have h1 : Rat.blt p.1 p.1 = false := by
    cases hb : Rat.blt p.1 p.1 with
    | false => rfl
    | true => exact absurd hb (by exact fun hb => lt_irrefl p.1 ((blt_iff_lt _ _).mp hb))
  simp [better, h1, lexLt_irrefl]

/-- The tuple order `better` is transitive. -/
theorem better_trans {p q r : ℚ × String}
    (h1 : better p q = true) (h2 : better q r = true) : better p r = true := by
  simp only [better, Bool.or_eq_true, Bool.and_eq_true, decide_eq_true_eq] at h1 h2 ⊢
  rcases h1 with h1 | ⟨h1e, h1l⟩
  · rcases h2 with h2 | ⟨h2e, h2l⟩
    · exact Or.inl ((blt_iff_lt _ _).mpr (lt_trans ((blt_iff_lt _ _).mp h2) ((blt_iff_lt _ _).mp h1)))
    · exact Or.inl (by rw [← h2e] at h1; exact h1)
  · rcases h2 with h2 | ⟨h2e, h2l⟩
    · exact Or.inl (by rw [h1e] at h2; exact h2)
    · exact Or.inr ⟨h2e.trans h1e, lexLt_trans _ _ _ h2l h1l⟩

/-- Trichotomy for the tuple order. -/
theorem better_cases (p q : ℚ × String) :
    better p q = true ∨ better q p = true ∨ p = q := by
  rcases lt_trichotomy q.1 p.1 with h | h | h
  · exact Or.inl (by simp [better, (blt_iff_lt _ _).mpr h])
  · cases hl : lexLt q.2.data p.2.data with
    | true => exact Or.inl (by simp [better, h, hl])
    | false =>
      cases hl2 : lexLt p.2.data q.2.data with
      | true => exact Or.inr (Or.inl (by simp [better, h.symm, hl2]))
      | false =>
        refine Or.inr (Or.inr ?_)
        have hs : p.2.data = q.2.data := lexLt_antisymm _ _ hl2 hl
        have hs2 : p.2 = q.2 := by
          cases hp2 : p.2 with
          | mk d1 =>
            cases hq2 : q.2 with
            | mk d2 =>
              rw [hp2, hq2] at hs
              simp only at hs
              rw [hs]
        exact Prod.ext h.symm hs2
  · exact Or.inr (Or.inl (by simp [better, (blt_iff_lt _ _).mpr h]))

/-- Folding `updBest` from a seeded incumbent yields the first-seen
maximum of the tuples: the result belongs to the inputs and no input is
strictly greater. -/
theorem foldl_updBest_some : ∀ (l : List (ℚ × String)) (q : ℚ × String),
    ∃ r, l.foldl updBest (some q) = some r ∧ r ∈ q :: l ∧
      ∀ e ∈ q :: l, better e r = false
  | [], q =>
    ⟨q, rfl, List.mem_cons_self _ _, by
      intro e he
      rcases List.mem_cons.mp he with rfl | h
      · exact better_irrefl e
      · cases h⟩
  | p :: tl, q => by
    cases hb : better p q with
    | true =>
      obtain ⟨r, hf, hm, hmax⟩ := foldl_updBest_some tl p
      refine ⟨r, ?_, ?_, ?_⟩
      · simpa [List.foldl_cons, updBest, hb] using hf
      · exact List.mem_cons_of_mem _ hm
      · intro e he
        rcases List.mem_cons.mp he with rfl | he'
        · cases hqr : better e r with
          | false => rfl
          | true =>
            exfalso
            have := better_trans hb hqr
            rw [hmax p (List.mem_cons_self _ _)] at this
            cases this
        · exact hmax e he'
    | false =>
      obtain ⟨r, hf, hm, hmax⟩ := foldl_updBest_some tl q
      refine ⟨r, ?_, ?_, ?_⟩
      · simpa [List.foldl_cons, updBest, hb] using hf
      · rcases List.mem_cons.mp hm with rfl | hm'
        · exact List.mem_cons_self _ _
        · exact List.mem_cons_of_mem _ (List.mem_cons_of_mem _ hm')
      · intro e he
        rcases List.mem_cons.mp he with rfl | he'
        · exact hmax e (List.mem_cons_self _ _)
        · rcases List.mem_cons.mp he' with rfl | he''
          · cases hpr : better e r with
            | false => rfl
            | true =>
              exfalso
              rcases better_cases q e with hqp | hpq | hqe
              · have := hmax q (List.mem_cons_self _ _)
                rw [better_trans hqp hpr] at this
                cases this
              · rw [hpq] at hb
                cases hb
              · rw [← hqe] at hpr
                have := hmax q (List.mem_cons_self _ _)
                rw [hpr] at this
                cases this
          · exact hmax e (List.mem_cons_of_mem _ he'')

/-- C9 counterexample: querying `"ab"` against `["ac", "ad"]` at cutoff
`0.4`, both candidates score exactly `1/2`, yet the matcher returns the
*second* candidate `"ad"`, not the first-seen `"ac"`: Python's
`max` over `(score, candidate)` tuples resolves score ties in favor of
the lexicographically greater candidate string. -/
theorem c9_tiebreak_counterexample :
    seqRatio "ac" "ab" = mkRat 1 2 ∧
    seqRatio "ad" "ab" = mkRat 1 2 ∧
    mkRat 2 5 ≤ seqRatio "ac" "ab" ∧
    get_close_matches1 "ab" ["ac", "ad"] (mkRat 2 5) = some "ad" ∧
    get_close_matches1 "ab" ["ac", "ad"] (mkRat 2 5) ≠ some "ac" :=
  ⟨by decide, by decide, by decide, by decide, by decide⟩

/-- C9 (amended): the matcher returns `none` exactly when no candidate
scores at or above the cutoff; otherwise it returns a candidate from
the list scoring at or above the cutoff such that every other
qualifying candidate either scores strictly lower, or ties and is not
lexicographically greater (score ties are broken toward the
lexicographically greater candidate, not the first seen). -/
theorem c9_fuzzy_matcher (w : String) (ps : List String) (c : ℚ) :
    (get_close_matches1 w ps c = none ↔ ∀ x ∈ ps, seqRatio x w < c) ∧
    (∀ y, get_close_matches1 w ps c = some y →
      y ∈ ps ∧ c ≤ seqRatio y w ∧
      ∀ x ∈ ps, c ≤ seqRatio x w →
        (seqRatio x w < seqRatio y w ∨
          (seqRatio x w = seqRatio y w ∧ lexLt y.data x.data = false))) := by
  have hpass : ∀ x : String, (!(Rat.blt (seqRatio x w) c)) = true ↔ c ≤ seqRatio x w := by
    intro x
    cases hb : Rat.blt (seqRatio x w) c with
    | false =>
      simp only [Bool.not_false, true_iff]
      exact not_lt.mp (fun hlt => by rw [(blt_iff_lt _ _).mpr hlt] at hb; cases hb)
    | true =>
      simp only [Bool.not_true]
      constructor
      · intro h
        cases h
      · intro hc
        exact absurd ((blt_iff_lt _ _).mp hb) (not_lt.mpr hc)
  constructor
  · cases hfil : ps.filter (fun x => !(Rat.blt (seqRatio x w) c)) with
    | nil =>
      simp only [get_close_matches1, hfil, List.map_nil, List.foldl_nil,
        Option.map_none', true_iff]
      intro x hx
      have := List.filter_eq_nil_iff.mp hfil x hx
      simp only [Bool.not_eq_true] at this
      have hb : Rat.blt (seqRatio x w) c = true := by
        cases hb2 : Rat.blt (seqRatio x w) c with
        | true => rfl
        | false => rw [hb2] at this; cases this
      exact (blt_iff_lt _ _).mp hb
    | cons x0 xs =>
      simp only [get_close_matches1, hfil, List.map_cons, List.foldl_cons]
      have hstep : updBest none (seqRatio x0 w, x0) = some (seqRatio x0 w, x0) := rfl
      rw [hstep]
      obtain ⟨r, hf, _, _⟩ := foldl_updBest_some (xs.map (fun x => (seqRatio x w, x)))
        (seqRatio x0 w, x0)
      rw [hf]
      simp only [Option.map_some']
      constructor
      · intro h
        simp at h
      · intro hall
        exfalso
        have hx0mem : x0 ∈ ps.filter (fun x => !(Rat.blt (seqRatio x w) c)) := by
          rw [hfil]; exact List.mem_cons_self _ _
        have h1 := (List.mem_filter.mp hx0mem).1
        have h2 := (hpass x0).mp (List.mem_filter.mp hx0mem).2
        exact absurd (hall x0 h1) (not_lt.mpr h2)
  · intro y hy
    rcases hfil : ps.filter (fun x => !(Rat.blt (seqRatio x w) c)) with _ | ⟨x0, xs⟩
    · rw [get_close_matches1] at hy
      simp only [hfil, List.map_nil, List.foldl_nil, Option.map_none'] at hy
      cases hy
    · rw [get_close_matches1] at hy
      simp only [hfil, List.map_cons, List.foldl_cons] at hy
      have hstep : updBest none (seqRatio x0 w, x0) = some (seqRatio x0 w, x0) := rfl
      rw [hstep] at hy
      obtain ⟨r, hf, hm, hmax⟩ := foldl_updBest_some (xs.map (fun x => (seqRatio x w, x)))
        (seqRatio x0 w, x0)
      rw [hf] at hy
      simp only [Option.map_some', Option.some.injEq] at hy
      have hrmem : r ∈ (x0 :: xs).map (fun x => (seqRatio x w, x)) := by
        simpa [List.map_cons] using hm
      rw [← hfil] at hrmem
      obtain ⟨y0, hy0mem, hy0eq⟩ := List.mem_map.mp hrmem
      have hy0filter := List.mem_filter.mp hy0mem
      have hyy0 : y0 = y := by rw [← hy, ← hy0eq]
      subst hyy0
      have hr1 : r.1 = seqRatio y0 w := by rw [← hy0eq]
      refine ⟨hy0filter.1, (hpass y0).mp hy0filter.2, ?_⟩
      intro x hx hcx
      have hxmem : (seqRatio x w, x) ∈ (x0 :: xs).map (fun z => (seqRatio z w, z)) := by
        rw [← hfil]
        exact List.mem_map.mpr ⟨x, List.mem_filter.mpr ⟨hx, (hpass x).mpr hcx⟩, rfl⟩
      have hxmem2 : (seqRatio x w, x) ∈
          (seqRatio x0 w, x0) :: xs.map (fun z => (seqRatio z w, z)) := by
        simpa [List.map_cons] using hxmem
      have hbet := hmax _ hxmem2
      simp only [better, Bool.or_eq_false_iff, Bool.and_eq_false_iff] at hbet
      obtain ⟨hblt, hband⟩ := hbet
      have hle : seqRatio x w ≤ r.1 := by
        refine not_lt.mp (fun hlt => ?_)
        rw [(blt_iff_lt _ _).mpr hlt] at hblt
        cases hblt
      rcases lt_or_eq_of_le hle with hlt | heq
      · rw [hr1] at hlt
        exact Or.inl hlt
      · refine Or.inr ⟨by rw [← hr1, heq], ?_⟩
        rcases hband with hd | hl
        · rw [heq] at hd
          simp at hd
        · have hr2 : r.2 = y0 := by rw [← hy0eq]
          rwa [hr2] at hl

/-- Witness for `c9_fuzzy_matcher`: the characterization applied to the
concrete tie-break run. -/
theorem c9_fuzzy_matcher_witness :
    "ad" ∈ ["ac", "ad"] ∧ mkRat 2 5 ≤ seqRatio "ad" "ab" ∧
    ∀ x ∈ ["ac", "ad"], mkRat 2 5 ≤ seqRatio x "ab" →
      (seqRatio x "ab" < seqRatio "ad" "ab" ∨
        (seqRatio x "ab" = seqRatio "ad" "ab" ∧ lexLt "ad".data x.data = false)) :=
  (c9_fuzzy_matcher "ab" ["ac", "ad"] (mkRat 2 5)).2 "ad" (by decide)

/-! ## Comparison engine (`process_vessel_file`, `src/app.py` lines 58-139)

Inputs are abstracted exactly as the specification prescribes: the
standards workbook is a catalog `List (String × List StdRow)` (sheet
name to parsed table, columns `Parameter`, `Min`, `Max`,
`Unit / Remarks`), and the vessel workbook is a list of named raw
grids.  Excel sheet names are unique, so association-list lookup models
the Python dict.  A `pandas` row lookup on duplicate column labels
returns a sub-frame rather than a single cell; as the specification
states, cleaned tables are treated as having effectively unique labels
and lookups take the first match.  A Python run-time error (the
`IndexError` of `.iloc[0]` on an empty selection, the impossible dict
`KeyError`) is `Except.error ()`: it aborts the whole run. -/

/-- One row of a standards table, holding the raw cell of each of the
four columns used.  A column missing from the table makes `Series.get`
return its default: `None` for `Min`/`Max` (modelled `PVal.pnone`),
`""` for `Unit / Remarks` (modelled `PVal.str ""`). -/
structure StdRow where
  param : PVal
  min : PVal
  max : PVal
  unit : PVal
deriving DecidableEq

/-- One detail row appended by the engine:
`[test_name, hdip_val, load_val, min_val, max_val, unit, status]`. -/
structure DetailRow where
  test : String
  hdip : PyF
  load : Option PyF
  min : Option PyF
  max : Option PyF
  unit : PVal
  status : String
deriving DecidableEq

/-- The running per-sheet accumulator of the row loop. -/
structure Acc where
  passed : Nat
  failed : Nat
  failedTests : List String
  details : List DetailRow
deriving DecidableEq

/-- One row of the output summary table. -/
structure SheetSummary where
  sheetName : String
  product : String
  testsChecked : Nat
  passed : Nat
  failed : Nat
  overall : String
  failedTests : String
deriving DecidableEq

/-- `row.get(name)` on a cleaned-table row: the value under the first
column with that name, if any. -/
def rowGet (r : List (String × PVal)) (name : String) : Option PVal :=
  (r.find? (fun p => decide (p.1 = name))).map (·.2)

/-- The stripped test description of a row:
`str(row.get("Tests Description", "")).strip()`.  A missing column
yields the default `""`; a `NaN` cell however stringifies to `"nan"`. -/
def testNameOf (r : List (String × PVal)) : String :=
  pyStrip (pyStr ((rowGet r "Tests Description").getD (PVal.str "")))

/-- The body of the `for _, row in table.iterrows()` loop
(`src/app.py` lines 94-118), one row at a time. -/
def rowStep (std : List StdRow) (hdipCol : String) (loadCol : Option String)
    (acc : Acc) (r : List (String × PVal)) : Except Unit Acc :=
  let test_name := testNameOf r
  if test_name = "" then .ok acc
  else
    let hdip_val := clean_numeric ((rowGet r hdipCol).getD PVal.pnone)
    let load_val := match loadCol with
      | some lc => clean_numeric ((rowGet r lc).getD PVal.pnone)
      | none => none
    match get_close_matches1 test_name (std.map (fun sr => pyStr sr.param)) (mkRat 3 5) with
    | none => .ok acc
    | some m =>
      match (std.filter (fun sr => decide (sr.param = PVal.str m))).head? with
      | none => .error ()
      | some std_row =>
        let min_val := clean_numeric std_row.min
        let max_val := clean_numeric std_row.max
        if hdip_val.isSome && (min_val.isSome || max_val.isSome) then
          let hv := hdip_val.getD PyF.nan
          let ok := compare_value hv min_val max_val
          { passed := acc.passed + (if ok then 1 else 0),
            failed := acc.failed + (if ok then 0 else 1),
            failedTests := acc.failedTests ++ (if ok then [] else [test_name]),
            details := acc.details ++
              [⟨test_name, hv, load_val, min_val, max_val, std_row.unit,
                if ok then "PASS" else "FAIL"⟩] : Acc }
          |> .ok
        else .ok acc

/-- The `for _, row in table.iterrows()` loop over all rows of a
cleaned table, threading the accumulator and propagating any run-time
error. -/
def rowLoop (std : List StdRow) (hdipCol : String) (loadCol : Option String) :
    List (List (String × PVal)) → Acc → Except Unit Acc
  | [], acc => .ok acc
  | r :: tl, acc =>
    match rowStep std hdipCol loadCol acc r with
    | .error e => .error e
    | .ok acc' => rowLoop std hdipCol loadCol tl acc'

/-- Result-column identification (`src/app.py` lines 76-88): the
primary (`hdip`+`result`) column, the secondary (`load`+`result`)
column, the all-`result` fallback; `none` skips the sheet. -/
def getResultCols (cols : List String) : Option (String × Option String) :=
  let hdip_cols := cols.filter (fun c =>
    strIn "hdip" (lowerStr c) && strIn "result" (lowerStr c))
  let load_cols := cols.filter (fun c =>
    strIn "load" (lowerStr c) && strIn "result" (lowerStr c))
  match hdip_cols with
  | [] =>
    match cols.filter (fun c => strIn "result" (lowerStr c)) with
    | c0 :: c1 :: _ => some (c0, some c1)
    | [c0] => some (c0, none)
    | [] => none
  | h :: _ => some (h, load_cols.head?)

/-- The summary row appended after the row loop
(`src/app.py` lines 120-121). -/
def mkSummary (sheetName product : String) (acc : Acc) : SheetSummary :=
  ⟨sheetName, product, acc.passed + acc.failed, acc.passed, acc.failed,
    if acc.failed = 0 then "PASS" else "FAIL", joinSep ", " acc.failedTests⟩

/-- Processing of one vessel sheet (`src/app.py` lines 64-125):
`ok none` means the sheet is silently skipped, `ok (some ...)` yields
its summary row and detail table, `error` aborts the run. -/
def process_sheet (catalog : List (String × List StdRow)) (sheetName : String)
    (grid : List (List PVal)) : Except Unit (Option (SheetSummary × List DetailRow)) :=
  match clean_table grid with
  | none => .ok none
  | some (cols, rows) =>
    let product := extract_product_from_sheetname sheetName
    match get_close_matches1 product (catalog.map (·.1)) (mkRat 2 5) with
    | none => .ok none
    | some key =>
      match (catalog.find? (fun p => decide (p.1 = key))).map (·.2) with
      | none => .error ()
      | some std =>
        match getResultCols cols with
        | none => .ok none
        | some (hdipCol, loadCol) =>
          match rowLoop std hdipCol loadCol rows ⟨0, 0, [], []⟩ with
          | .error e => .error e
          | .ok acc => .ok (some (mkSummary sheetName product acc, acc.details))

/-- The `for sheet_name in vessel_xls.sheet_names` loop: accumulate
summary rows and per-sheet detail tables in sheet order, skipping
skipped sheets and propagating any run-time error. -/
def processSheets (catalog : List (String × List StdRow)) :
    List (String × List (List PVal)) →
    List SheetSummary × List (String × List DetailRow) →
    Except Unit (List SheetSummary × List (String × List DetailRow))
  | [], st => .ok st
  | sh :: tl, st =>
    match process_sheet catalog sh.1 sh.2 with
    | .error e => .error e
    | .ok none => processSheets catalog tl st
    | .ok (some (s, ds)) => processSheets catalog tl (st.1 ++ [s], st.2 ++ [(sh.1, ds)])

/-- `process_vessel_file` (`src/app.py` lines 58-139), restricted to
its computational core: the summary rows and the per-sheet detail
tables, in sheet order (serialization of the workbook bytes is the
output collaborator). -/
def process_vessel_file (catalog : List (String × List StdRow))
    (sheets : List (String × List (List PVal))) :
    Except Unit (List SheetSummary × List (String × List DetailRow)) :=
  processSheets catalog sheets ([], [])

/-- A successful `rowStep` preserves the accumulator invariant:
the counters sum to the number of detail rows, and the failed counter
equals the number of recorded failed-test names. -/
theorem rowStep_inv (std : List StdRow) (hc : String) (lc : Option String)
    (acc : Acc) (r : List (String × PVal)) (acc' : Acc)
    (h : rowStep std hc lc acc r = .ok acc')
    (h1 : acc.passed + acc.failed = acc.details.length)
    (h2 : acc.failed = acc.failedTests.length) :
    acc'.passed + acc'.failed = acc'.details.length ∧
      acc'.failed = acc'.failedTests.length := by
  simp only [rowStep] at h
  by_cases hname : testNameOf r = ""
  · rw [if_pos hname] at h
    simp only [Except.ok.injEq] at h
    subst h
    exact ⟨h1, h2⟩
  · rw [if_neg hname] at h
    cases hm : get_close_matches1 (testNameOf r) (std.map (fun sr => pyStr sr.param))
        (mkRat 3 5) with
    | none =>
      simp only [hm, Except.ok.injEq] at h
      subst h
      exact ⟨h1, h2⟩
    | some m =>
      simp only [hm] at h
      cases hs : (std.filter (fun sr => decide (sr.param = PVal.str m))).head? with
      | none =>
        simp only [hs] at h
        simp at h
      | some sr =>
        simp only [hs] at h
        cases hg : (clean_numeric ((rowGet r hc).getD PVal.pnone)).isSome &&
            ((clean_numeric sr.min).isSome || (clean_numeric sr.max).isSome) with
        | true =>
          rw [if_pos hg] at h
          simp only [Except.ok.injEq] at h
          subst h
          cases hok : compare_value ((clean_numeric ((rowGet r hc).getD PVal.pnone)).getD PyF.nan)
              (clean_numeric sr.min) (clean_numeric sr.max) with
          | true => constructor <;> simp [hok] <;> omega
          | false => constructor <;> simp [hok] <;> omega
        | false =>
          have hneg : ¬ (((clean_numeric ((rowGet r hc).getD PVal.pnone)).isSome &&
              ((clean_numeric sr.min).isSome || (clean_numeric sr.max).isSome)) = true) := by
            rw [hg]
            simp
          rw [if_neg hneg] at h
          simp only [Except.ok.injEq] at h
          subst h
          exact ⟨h1, h2⟩

/-- The row loop preserves the accumulator invariant. -/
theorem rowLoop_inv (std : List StdRow) (hc : String) (lc : Option String) :
    ∀ (rows : List (List (String × PVal))) (acc acc' : Acc),
      rowLoop std hc lc rows acc = .ok acc' →
      acc.passed + acc.failed = acc.details.length ∧ acc.failed = acc.failedTests.length →
      acc'.passed + acc'.failed = acc'.details.length ∧
        acc'.failed = acc'.failedTests.length := by
  intro rows
  induction rows with
  | nil =>
    intro acc acc' h hi
    simp only [rowLoop, Except.ok.injEq] at h
    subst h
    exact hi
  | cons r tl ih =>
    intro acc acc' h hi
    simp only [rowLoop] at h
    cases hstep : rowStep std hc lc acc r with
    | error e =>
      simp only [hstep] at h
      simp at h
    | ok a1 =>
      simp only [hstep] at h
      exact ih a1 acc' h (rowStep_inv std hc lc acc r a1 hstep hi.1 hi.2)

/-- The summary row built after the loop satisfies the bookkeeping
invariant by construction. -/
theorem mkSummary_inv (n p : String) (acc : Acc) :
    (mkSummary n p acc).testsChecked = (mkSummary n p acc).passed + (mkSummary n p acc).failed ∧
    ((mkSummary n p acc).overall = "FAIL" ↔ 0 < (mkSummary n p acc).failed) := by
  refine ⟨rfl, ?_⟩
  simp only [mkSummary]
  cases hf : acc.failed with
  | zero => simp
  | succ k => simp

/-- Every summary row emitted by `process_sheet` satisfies the
invariant. -/
theorem process_sheet_inv (catalog : List (String × List StdRow)) (name : String)
    (grid : List (List PVal)) (s : SheetSummary) (ds : List DetailRow)
    (h : process_sheet catalog name grid = .ok (some (s, ds))) :
    s.testsChecked = s.passed + s.failed ∧ (s.overall = "FAIL" ↔ 0 < s.failed) := by
  simp only [process_sheet] at h
  cases hct : clean_table grid with
  | none =>
    simp only [hct] at h
    simp at h
  | some pr =>
    obtain ⟨cols, rows⟩ := pr
    simp only [hct] at h
    cases hk : get_close_matches1 (extract_product_from_sheetname name)
        (catalog.map (·.1)) (mkRat 2 5) with
    | none =>
      simp only [hk] at h
      simp at h
    | some key =>
      simp only [hk] at h
      cases hstd : (catalog.find? (fun p => decide (p.1 = key))).map (·.2) with
      | none =>
        simp only [hstd] at h
        simp at h
      | some std =>
        simp only [hstd] at h
        cases hgc : getResultCols cols with
        | none =>
          simp only [hgc] at h
          simp at h
        | some pc =>
          obtain ⟨hc, lc⟩ := pc
          simp only [hgc] at h
          cases hloop : rowLoop std hc lc rows ⟨0, 0, [], []⟩ with
          | error e =>
            simp only [hloop] at h
            simp at h
          | ok acc =>
            simp only [hloop, Except.ok.injEq, Option.some.injEq, Prod.mk.injEq] at h
            rw [← h.1]
            exact mkSummary_inv name _ acc

/-- C3: in every run that completes, every summary row satisfies
`tests_checked = passed + failed`, and its overall result is `"FAIL"`
precisely when `failed > 0`. -/
theorem c3_summary_invariant (catalog : List (String × List StdRow))
    (sheets : List (String × List (List PVal)))
    (res : List SheetSummary × List (String × List DetailRow))
    (h : process_vessel_file catalog sheets = .ok res) :
    ∀ s ∈ res.1, s.testsChecked = s.passed + s.failed ∧
      (s.overall = "FAIL" ↔ 0 < s.failed) := by
  have aux : ∀ (shs : List (String × List (List PVal)))
      (st res0 : List SheetSummary × List (String × List DetailRow)),
      processSheets catalog shs st = .ok res0 →
      (∀ s ∈ st.1, s.testsChecked = s.passed + s.failed ∧
        (s.overall = "FAIL" ↔ 0 < s.failed)) →
      ∀ s ∈ res0.1, s.testsChecked = s.passed + s.failed ∧
        (s.overall = "FAIL" ↔ 0 < s.failed) := by
    intro shs
    induction shs with
    | nil =>
      intro st res0 h0 hst
      simp only [processSheets, Except.ok.injEq] at h0
      subst h0
      exact hst
    | cons sh tl ih =>
      intro st res0 h0 hst
      simp only [processSheets] at h0
      cases hps : process_sheet catalog sh.1 sh.2 with
      | error e =>
        simp only [hps] at h0
        simp at h0
      | ok o =>
        cases o with
        | none =>
          simp only [hps] at h0
          exact ih st res0 h0 hst
        | some pr =>
          obtain ⟨s1, ds1⟩ := pr
          simp only [hps] at h0
          refine ih _ res0 h0 ?_
          intro s hs
          rcases List.mem_append.mp hs with hs1 | hs2
          · exact hst s hs1
          · rw [List.mem_singleton] at hs2
            subst hs2
            exact process_sheet_inv catalog sh.1 sh.2 s ds1 hps
  exact aux sheets ([], []) res h (by intro s hs; exact absurd hs (List.not_mem_nil s))

/-- Witness for `c3_summary_invariant` on a one-sheet run that emits
one summary row. -/
theorem c3_summary_invariant_witness :
    process_vessel_file [("HSD", [])]
      [("HSD 1", [[PVal.str "Tests Description", PVal.str "HDIP Result"],
        [PVal.str "", PVal.nan]])] =
      .ok ([⟨"HSD 1", "HSD", 0, 0, 0, "PASS", ""⟩], [("HSD 1", [])]) ∧
    ((⟨"HSD 1", "HSD", 0, 0, 0, "PASS", ""⟩ : SheetSummary).testsChecked =
      (⟨"HSD 1", "HSD", 0, 0, 0, "PASS", ""⟩ : SheetSummary).passed +
      (⟨"HSD 1", "HSD", 0, 0, 0, "PASS", ""⟩ : SheetSummary).failed ∧
      ((⟨"HSD 1", "HSD", 0, 0, 0, "PASS", ""⟩ : SheetSummary).overall = "FAIL" ↔
        0 < (⟨"HSD 1", "HSD", 0, 0, 0, "PASS", ""⟩ : SheetSummary).failed)) :=
  ⟨by rfl,
   c3_summary_invariant [("HSD", [])]
     [("HSD 1", [[PVal.str "Tests Description", PVal.str "HDIP Result"],
       [PVal.str "", PVal.nan]])]
     ([⟨"HSD 1", "HSD", 0, 0, 0, "PASS", ""⟩], [("HSD 1", [])]) (by rfl)
     ⟨"HSD 1", "HSD", 0, 0, 0, "PASS", ""⟩ (List.mem_singleton.mpr rfl)⟩

/-- C2: for a data row that reaches the bounds lookup (non-empty
description, fuzzy match found, matched specification row selected),
the engine appends exactly one detail row and increments exactly one of
the counters precisely when the normalized primary measurement is a
float (`is not None`) and at least one normalized bound is a float;
otherwise the row leaves the accumulator untouched — it is silently
excluded from both the detail table and the counts.  (Note `NaN` is a
float: a `NaN` measurement or bound counts as present here.) -/
theorem c2_detail_row_guard (std : List StdRow) (hdipCol : String) (loadCol : Option String)
    (acc acc' : Acc) (r : List (String × PVal)) (m : String) (sr : StdRow)
    (hname : ¬ testNameOf r = "")
    (hmatch : get_close_matches1 (testNameOf r) (std.map (fun s => pyStr s.param))
      (mkRat 3 5) = some m)
    (hsel : (std.filter (fun s => decide (s.param = PVal.str m))).head? = some sr)
    (hstep : rowStep std hdipCol loadCol acc r = .ok acc') :
    ((acc'.details.length = acc.details.length + 1 ∧
      acc'.passed + acc'.failed = acc.passed + acc.failed + 1) ↔
      ((clean_numeric ((rowGet r hdipCol).getD PVal.pnone)).isSome = true ∧
        ((clean_numeric sr.min).isSome = true ∨ (clean_numeric sr.max).isSome = true))) ∧
    (¬ ((clean_numeric ((rowGet r hdipCol).getD PVal.pnone)).isSome = true ∧
        ((clean_numeric sr.min).isSome = true ∨ (clean_numeric sr.max).isSome = true)) →
      acc' = acc) := by
  simp only [rowStep] at hstep
  rw [if_neg hname] at hstep
  simp only [hmatch, hsel] at hstep
  cases hg : (clean_numeric ((rowGet r hdipCol).getD PVal.pnone)).isSome &&
      ((clean_numeric sr.min).isSome || (clean_numeric sr.max).isSome) with
  | true =>
    rw [if_pos hg] at hstep
    simp only [Except.ok.injEq] at hstep
    subst hstep
    have hg' := hg
    simp only [Bool.and_eq_true, Bool.or_eq_true] at hg'
    obtain ⟨hh, hor'⟩ := hg'
    refine ⟨iff_of_true ⟨?_, ?_⟩ ⟨hh, hor'⟩, fun hn => absurd ⟨hh, hor'⟩ hn⟩
    · simp
    · cases hok : compare_value ((clean_numeric ((rowGet r hdipCol).getD PVal.pnone)).getD PyF.nan)
          (clean_numeric sr.min) (clean_numeric sr.max) with
      | true => simp [hok]; omega
      | false => simp [hok]; omega
  | false =>
    have hneg : ¬ (((clean_numeric ((rowGet r hdipCol).getD PVal.pnone)).isSome &&
        ((clean_numeric sr.min).isSome || (clean_numeric sr.max).isSome)) = true) := by
      rw [hg]
      simp
    rw [if_neg hneg] at hstep
    simp only [Except.ok.injEq] at hstep
    subst hstep
    refine ⟨iff_of_false (fun hl => by omega) (fun hr => ?_), fun _ => rfl⟩
    apply hneg
    simp only [Bool.and_eq_true, Bool.or_eq_true]
    exact ⟨hr.1, hr.2⟩

/-- Witness for `c2_detail_row_guard`: a row with a numeric measurement
and a present lower bound produces exactly one detail row and one
counter increment. -/
theorem c2_detail_row_guard_witness :
    rowStep [⟨.str "FP", .num (mkRat 10 1), .pnone, .str ""⟩] "RES" none ⟨0, 0, [], []⟩
      [("Tests Description", .str "FP"), ("RES", .num (mkRat 40 1))] =
      .ok ⟨1, 0, [],
        [⟨"FP", .fin (mkRat 40 1), none, some (.fin (mkRat 10 1)), none, .str "", "PASS"⟩]⟩ ∧
    (((⟨1, 0, [],
        [⟨"FP", .fin (mkRat 40 1), none, some (.fin (mkRat 10 1)), none, .str "", "PASS"⟩]⟩ : Acc).details.length =
        (⟨0, 0, [], []⟩ : Acc).details.length + 1 ∧
      (⟨1, 0, [],
        [⟨"FP", .fin (mkRat 40 1), none, some (.fin (mkRat 10 1)), none, .str "", "PASS"⟩]⟩ : Acc).passed +
        (⟨1, 0, [],
          [⟨"FP", .fin (mkRat 40 1), none, some (.fin (mkRat 10 1)), none, .str "", "PASS"⟩]⟩ : Acc).failed =
        (⟨0, 0, [], []⟩ : Acc).passed + (⟨0, 0, [], []⟩ : Acc).failed + 1) ↔
      ((clean_numeric ((rowGet [("Tests Description", .str "FP"), ("RES", .num (mkRat 40 1))] "RES").getD PVal.pnone)).isSome = true ∧
        ((clean_numeric (PVal.num (mkRat 10 1))).isSome = true ∨
          (clean_numeric PVal.pnone).isSome = true))) ∧
    (¬ ((clean_numeric ((rowGet [("Tests Description", .str "FP"), ("RES", .num (mkRat 40 1))] "RES").getD PVal.pnone)).isSome = true ∧
        ((clean_numeric (PVal.num (mkRat 10 1))).isSome = true ∨
          (clean_numeric PVal.pnone).isSome = true)) →
      (⟨1, 0, [],
        [⟨"FP", .fin (mkRat 40 1), none, some (.fin (mkRat 10 1)), none, .str "", "PASS"⟩]⟩ : Acc) =
        (⟨0, 0, [], []⟩ : Acc)) :=
  ⟨by rfl,
   c2_detail_row_guard [⟨.str "FP", .num (mkRat 10 1), .pnone, .str ""⟩] "RES" none
     ⟨0, 0, [], []⟩
     ⟨1, 0, [], [⟨"FP", .fin (mkRat 40 1), none, some (.fin (mkRat 10 1)), none, .str "", "PASS"⟩]⟩
     [("Tests Description", .str "FP"), ("RES", .num (mkRat 40 1))] "FP"
     ⟨.str "FP", .num (mkRat 10 1), .pnone, .str ""⟩
     (by decide) (by rfl) (by rfl) (by rfl)⟩

/-- C8 counterexample: a row whose description cell is missing (pandas
`NaN`) is *not* skipped: `str(nan)` is the non-empty string `"nan"`,
the row proceeds, and here it even produces a detail row and a counter
increment. -/
theorem c8_missing_description_counterexample :
    testNameOf [("Tests Description", PVal.nan), ("RES", .num (mkRat 5 1))] = "nan" ∧
    rowStep [⟨.str "nan", .num (mkRat 0 1), .pnone, .str ""⟩] "RES" none ⟨0, 0, [], []⟩
      [("Tests Description", PVal.nan), ("RES", .num (mkRat 5 1))] =
      .ok ⟨1, 0, [],
        [⟨"nan", .fin (mkRat 5 1), none, some (.fin (mkRat 0 1)), none, .str "", "PASS"⟩]⟩ :=
  ⟨rfl, rfl⟩

/-- C8 (amended): the engine reads the description from the fixed
column `"Tests Description"` (a missing column yields the default
`""`), and skips a row — leaving the accumulator untouched — whenever
the stringified, stripped description is empty; a missing (`NaN`)
description cell, however, stringifies to `"nan"` and is not skipped. -/
theorem c8_description_skip (std : List StdRow) (hc : String) (lc : Option String)
    (acc : Acc) (r : List (String × PVal)) :
    (rowGet r "Tests Description" = none → testNameOf r = "") ∧
    (testNameOf r = "" → rowStep std hc lc acc r = .ok acc) := by
  constructor
  · intro h
    simp [testNameOf, h, pyStr, pyStrip]
  · intro h
    simp only [rowStep]
    rw [if_pos h]

/-- Witness for `c8_description_skip` on a row with no description
column at all. -/
theorem c8_description_skip_witness :
    testNameOf [] = "" ∧
    rowStep [] "RES" none ⟨0, 0, [], []⟩ [] = .ok ⟨0, 0, [], []⟩ :=
  ⟨(c8_description_skip [] "RES" none ⟨0, 0, [], []⟩ []).1 rfl,
   (c8_description_skip [] "RES" none ⟨0, 0, [], []⟩ []).2 rfl⟩

/-- C10: a sheet that passes table discovery, standards matching and
result-column identification, but in which the row loop leaves the
accumulator without any detail row, still emits a summary row with
`Tests Checked = 0`, `Passed = 0`, `Failed = 0`,
`Overall Result = "PASS"` and an empty failed-tests string, together
with an empty detail table — indistinguishable in the summary from a
sheet whose tests all genuinely passed. -/
theorem c10_empty_sheet_summary (catalog : List (String × List StdRow)) (name : String)
    (grid : List (List PVal)) (cols : List String) (rows : List (List (String × PVal)))
    (key : String) (std : List StdRow) (hc : String) (lc : Option String) (acc : Acc)
    (hct : clean_table grid = some (cols, rows))
    (hkey : get_close_matches1 (extract_product_from_sheetname name)
      (catalog.map (·.1)) (mkRat 2 5) = some key)
    (hstd : (catalog.find? (fun p => decide (p.1 = key))).map (·.2) = some std)
    (hcols : getResultCols cols = some (hc, lc))
    (hloop : rowLoop std hc lc rows ⟨0, 0, [], []⟩ = .ok acc)
    (hempty : acc.details = []) :
    process_sheet catalog name grid =
      .ok (some (⟨name, extract_product_from_sheetname name, 0, 0, 0, "PASS", ""⟩, [])) := by
  obtain ⟨h1, h2⟩ := rowLoop_inv std hc lc rows ⟨0, 0, [], []⟩ acc hloop ⟨rfl, rfl⟩
  rw [hempty] at h1
  simp only [List.length_nil] at h1
  have hp : acc.passed = 0 := by omega
  have hf : acc.failed = 0 := by omega
  have hft : acc.failedTests = [] := by
    have hlen : acc.failedTests.length = 0 := by omega
    exact List.eq_nil_of_length_eq_zero hlen
  simp only [process_sheet, hct, hkey, hstd, hcols, hloop]
  rw [mkSummary, hp, hf, hft, hempty]
  rfl

/-- Witness for `c10_empty_sheet_summary`: a discovered sheet whose
single data row has an empty description. -/
theorem c10_empty_sheet_summary_witness :
    process_sheet [("HSD", [])] "HSD 1"
      [[PVal.str "Tests Description", PVal.str "HDIP Result"], [PVal.str "", PVal.nan]] =
      .ok (some (⟨"HSD 1", extract_product_from_sheetname "HSD 1", 0, 0, 0, "PASS", ""⟩, [])) :=
  c10_empty_sheet_summary [("HSD", [])] "HSD 1"
    [[PVal.str "Tests Description", PVal.str "HDIP Result"], [PVal.str "", PVal.nan]]
    ["Tests Description", "HDIP Result"]
    [[("Tests Description", PVal.str ""), ("HDIP Result", PVal.nan)]]
    "HSD" [] "HDIP Result" none ⟨0, 0, [], []⟩
    (by rfl) (by rfl) (by rfl) (by rfl) (by rfl) (by rfl)

/-- C5: the numeric normalizer strips the comparison glyphs `<` and `>`
wherever they occur (removing them from the text never changes the
result), parses the remainder as a decimal, and returns `None` (absent)
on parse failure; the four concrete evaluations of the claim hold
(`0.05` is `mkRat 1 20`). -/
theorem c5_numeric_normalizer :
    (∀ s : String, clean_numeric (.str s) = clean_numeric (.str (stripGlyphs s))) ∧
    clean_numeric (.str "<0.05") = some (.fin (mkRat 1 20)) ∧
    clean_numeric (.str ">0.05") = some (.fin (mkRat 1 20)) ∧
    clean_numeric (.str "n/a") = none ∧
    clean_numeric (.num (mkRat 5 1)) = some (.fin (mkRat 5 1)) := by
  refine ⟨?_, by decide, by decide, by decide, by decide⟩
  intro s
  have h : stripGlyphs (stripGlyphs s) = stripGlyphs s := by
    simp [stripGlyphs, List.filter_filter]
  simp [clean_numeric, h]

end VesselQC
